import Mathlib

/-!
Verification of the FilenFolderShare upload/compaction server (`server.js`)
against its natural-language specification.

The model is a shallow embedding of the relevant parts of `server.js`:

* Node's `path.posix.normalize` / `path.posix.join` string algorithms
  (`pathNormalize`, `pathJoin`), used by the source's `safeJoin`;
* the uploads-root filesystem state as a list of top-level entries
  (`RootEntry`), folders holding trees of `Node`s;
* `compactDirectory` / `compactAll` (zip-then-delete compaction),
  `computeFolderSize` (stack-based traversal with an early-stop ceiling),
  the folder-mode branch of the `/upload` handler (as an event trace),
  `getRootName`, and the `DELETE /delete/file/:name` handler.

Filesystem side effects are modelled by explicit state passing; the
temporal claims are settled on event traces (`Ev`) emitted in source order.
-/

/-- The uploads root. In the source it is `path.join(__dirname, 'uploads')`;
the model fixes the server directory at `/srv/app`. -/
def UPLOADS_DIR : String := "/srv/app/uploads"

/-- String prefix test on character lists (JS `String.prototype.startsWith`). -/
def strStartsWith (s pre : String) : Bool := pre.data.isPrefixOf s.data

/-- String suffix test on character lists. -/
def strEndsWith (s suf : String) : Bool := suf.data.isSuffixOf s.data

/-- Split a character list at every occurrence of `sep` (JS `split`):
`acc` holds the characters of the current field in reverse. -/
def splitChAux (sep : Char) : List Char → List Char → List String
  | [], acc => [String.mk acc.reverse]
  | c :: rest, acc =>
    if c == sep then String.mk acc.reverse :: splitChAux sep rest []
    else splitChAux sep rest (c :: acc)

/-- JS `s.split('/')`. -/
def splitSlash (s : String) : List String := splitChAux '/' s.data []

/-- One step of Node `path.posix.normalize` segment resolution: empty and `.`
segments are dropped; `..` pops the last kept segment, except that in a
relative path (`allowAbove = true`) leading `..` segments accumulate, and in
an absolute path a `..` at the root is dropped. The stack holds kept segments
in reverse order. -/
def npStep (allowAbove : Bool) (stack : List String) (seg : String) : List String :=
  if seg = "" ∨ seg = "." then stack
  else if seg = ".." then
    match stack with
    | [] => if allowAbove then [".."] else []
    | top :: rest => if top = ".." then ".." :: (top :: rest) else rest
  else seg :: stack

/-- Node `path.posix.normalize`: splits on `/`, resolves `.`/`..`/empty
segments, keeps a leading `/` of an absolute path and a trailing `/`. -/
def pathNormalize (p : String) : String :=
  if p = "" then "."
  else
    let isAbs := strStartsWith p "/"
    let trail := strEndsWith p "/"
    let segs := ((splitSlash p).foldl (npStep (!isAbs)) []).reverse
    let body := String.intercalate "/" segs
    if body = "" then
      if isAbs then "/" else if trail then "./" else "."
    else
      let body2 := if trail then body ++ "/" else body
      if isAbs then "/" ++ body2 else body2

/-- Node `path.posix.join a b`: concatenate the non-empty arguments with `/`
and normalize; the join of empty strings is `"."`. -/
def pathJoin (a b : String) : String :=
  let parts := [a, b].filter (fun s => s ≠ "")
  if parts.isEmpty then "." else pathNormalize (String.intercalate "/" parts)

/-- `safeJoin(base, target)` from `server.js` (lines 67-74): normalize the
untrusted `target`, strip leading `/` and `\` characters, join onto `base`,
and reject (`throw new Error('Invalid path')`, modelled as `Except.error`)
unless the result has `base` as a string prefix. -/
def safeJoin (base target : String) : Except String String :=
  let normalized := String.mk ((pathNormalize target).data.dropWhile (fun c => c == '/' || c == '\\'))
  let full := pathJoin base normalized
  if strStartsWith full base then Except.ok full else Except.error "Invalid path"

/-- Spec-side predicate: `p` lies within `root` — it is `root` itself or a
strict descendant reached through a path separator. -/
def withinRoot (root p : String) : Bool := p == root || strStartsWith p (root ++ "/")

/-- Spec-side predicate: `p` is a strict descendant of `root`. -/
def strictDescendant (root p : String) : Bool := strStartsWith p (root ++ "/") && p != root

/-- A node inside an uploaded folder tree: a file with its stat size and byte
content, or a subdirectory. -/
inductive Node where
  | file (name : String) (size : Nat) (data : List Nat)
  | dir (name : String) (children : List Node)

/-- A top-level entry of the uploads root: a loose file, a folder, a
completed `<name>.zip` archive (whose bytes encode the archived tree), or a
partially written archive left behind by a failed archiver run. -/
inductive RootEntry where
  | file (name : String) (size : Nat) (data : List Nat)
  | folder (name : String) (children : List Node)
  | zip (name : String) (entries : List Node)
  | brokenZip (name : String)

/-- The name of a root entry. -/
def RootEntry.name : RootEntry → String
  | .file n _ _ => n
  | .folder n _ => n
  | .zip n _ => n
  | .brokenZip n => n

/-- The uploads root directory listing, in readdir order. -/
abbrev RootState := List RootEntry

/-- `fs.stat`-style lookup of the entry called `n` at the uploads root. -/
def lookupEntry (st : RootState) (n : String) : Option RootEntry :=
  st.find? (fun e => e.name == n)

/-- `fs.pathExists` for the root-level path named `n` (any entry kind). -/
def hasEntry (st : RootState) (n : String) : Bool :=
  st.any (fun e => e.name == n)

/-- `stat && stat.isDirectory()` for the root-level name `n`. -/
def isDirAt (st : RootState) (n : String) : Bool :=
  match lookupEntry st n with
  | some (.folder _ _) => true
  | _ => false

/-- `fs.remove` of the root-level path named `n`. -/
def removeEntry (st : RootState) (n : String) : RootState :=
  st.filter (fun e => e.name != n)

/-- The per-folder outcome objects returned by `compactDirectory`:
`{skipped, reason}`, `{removed, zipExisted}`, `{compacted}` or
`{error, message}`. -/
inductive Outcome where
  | skipped (name reason : String)
  | removed (name : String) (zipExisted : Bool)
  | compacted (name : String)
  | error (name message : String)
deriving DecidableEq

/-- The folder name an outcome reports on. -/
def Outcome.dirName : Outcome → String
  | .skipped n _ => n
  | .removed n _ => n
  | .compacted n => n
  | .error n _ => n

/-- Whether an outcome is the `{removed, zipExisted}` cleanup outcome. -/
def isRemovedOutcome : Outcome → Bool
  | .removed _ _ => true
  | _ => false

/-- Whether an outcome is the `{error, message}` outcome. -/
def isErrorOutcome : Outcome → Bool
  | .error _ _ => true
  | _ => false

/-- Filesystem events, emitted in source order. `createLock`/`removeLock`
stand for creating/removing a `<name>.uploading` marker (no line of
`server.js` emits them); `zipStart` is `fs.createWriteStream(zipPath)`
plus the start of archiving; `zipFinalized` is the write stream's `close`
event after `archive.finalize()`; `removeDir` is `fs.remove` of the folder
named `name`. -/
inductive Ev where
  | ensureDir (path : String)
  | writeFile (path : String) (data : List Nat)
  | createLock (name : String)
  | removeLock (name : String)
  | zipStart (name : String)
  | zipFinalized (name : String)
  | removeDir (name : String)
deriving DecidableEq

/-- `compactDirectory(dirName)` from `server.js` (lines 22-47), returning the
outcome object, the resulting uploads-root state and the event trace. `fail`
injects the archiver result: `some msg` means `archive.on('error')` fires
with message `msg` (the write stream has already created a partial
`<dirName>.zip` by then, and the catch block deletes nothing); `none` means
archiving succeeds, after which the folder is removed. -/
def compactDirectory (fail : Option String) (st : RootState) (dirName : String) :
    Outcome × RootState × List Ev :=
  match lookupEntry st dirName with
  | some (.folder _ children) =>
    if hasEntry st (dirName ++ ".zip") then
      (Outcome.removed dirName true, removeEntry st dirName, [Ev.removeDir dirName])
    else
      match fail with
      | some msg =>
        (Outcome.error dirName msg,
         st ++ [RootEntry.brokenZip (dirName ++ ".zip")],
         [Ev.zipStart dirName])
      | none =>
        (Outcome.compacted dirName,
         removeEntry (st ++ [RootEntry.zip (dirName ++ ".zip") children]) dirName,
         [Ev.zipStart dirName, Ev.zipFinalized dirName, Ev.removeDir dirName])
  | _ => (Outcome.skipped dirName "not-directory", st, [])

/-- The names of the directory entries of a root listing, in readdir order
(`entries.filter(ent => ent.isDirectory())`). -/
def dirNames (st : RootState) : List String :=
  st.filterMap (fun e => match e with | .folder n _ => some n | _ => none)

/-- The loop of `compactAll()` over the initial readdir listing, threading
the root state: hidden names (leading `.`) and names whose
`<name>.uploading` lock file currently exists are skipped silently
(`continue` — no outcome is recorded); every other folder's
`compactDirectory` outcome is collected. -/
def compactAllLoop (failFor : String → Option String) :
    List String → RootState → List Outcome × RootState
  | [], st => ([], st)
  | n :: rest, st =>
    if strStartsWith n "." then compactAllLoop failFor rest st
    else if hasEntry st (n ++ ".uploading") then compactAllLoop failFor rest st
    else
      let r := compactDirectory (failFor n) st n
      let rr := compactAllLoop failFor rest r.2.1
      (r.1 :: rr.1, rr.2)

/-- `compactAll()` from `server.js` (lines 49-64). `failFor` gives the
injected archiver result per folder name. -/
def compactAll (failFor : String → Option String) (st : RootState) :
    List Outcome × RootState :=
  compactAllLoop failFor (dirNames st) st

/-- Number of tree nodes below (and including) a node; used only as the
termination measure of the traversal loop. -/
def Node.weight : Node → Nat
  | .file _ _ _ => 1
  | .dir _ children => 1 + (children.attach.map (fun x => Node.weight x.1)).sum
decreasing_by
  have h := List.sizeOf_lt_of_mem x.2
  cases x
  simp at h ⊢
  omega

/-- Total stat size of all files below (and including) a node — the exact
cumulative size of a tree, with no traversal ceiling. -/
def Node.total : Node → Nat
  | .file _ s _ => s
  | .dir _ children => (children.attach.map (fun x => Node.total x.1)).sum
decreasing_by
  have h := List.sizeOf_lt_of_mem x.2
  cases x
  simp at h ⊢
  omega

/-- Termination measure of a directory listing. -/
def listWeight (l : List Node) : Nat := (l.map Node.weight).sum

/-- Exact cumulative size of a directory listing. -/
def cumSize (l : List Node) : Nat := (l.map Node.total).sum

/-- Sum of the stat sizes of the immediate file children of a listing
(the `it.isFile()` branch of the items loop). -/
def fileSizeSum (l : List Node) : Nat :=
  (l.filterMap (fun n => match n with | .file _ s _ => some s | _ => none)).sum

/-- The listings of the immediate subdirectories (the `it.isDirectory()`
branch pushes each onto the work stack). -/
def subdirLists (l : List Node) : List (List Node) :=
  l.filterMap (fun n => match n with | .dir _ c => some c | _ => none)

/-- Unfolding lemma for `Node.weight` on directories. -/
theorem Node.weight_dir (n : String) (c : List Node) :
    Node.weight (Node.dir n c) = 1 + (c.map Node.weight).sum := by
  rw [Node.weight]
  congr 1
  exact congrArg List.sum (List.attach_map_val c Node.weight)

/-- Unfolding lemma for `Node.total` on directories. -/
theorem Node.total_dir (n : String) (c : List Node) :
    Node.total (Node.dir n c) = (c.map Node.total).sum := by
  rw [Node.total]
  exact congrArg List.sum (List.attach_map_val c Node.total)

/-- The subdirectory listings of `l` weigh strictly less than `l` itself
once each carries its own `+ 1` surcharge (the popped directory). -/
theorem subdirLists_weight (l : List Node) :
    ((subdirLists l).map (fun c => listWeight c + 1)).sum ≤ listWeight l := by
  induction l with
  | nil => simp [subdirLists, listWeight]
  | cons x xs ih =>
    cases x with
    | file n s d =>
      simp only [subdirLists, List.filterMap_cons, listWeight, List.map_cons, List.sum_cons] at *
      omega
    | dir n c =>
      simp only [subdirLists, List.filterMap_cons, listWeight, List.map_cons, List.sum_cons,
        Node.weight_dir] at *
      omega

/-- The `while (stack.length)` loop of `computeFolderSize` (lines 206-220):
pop a directory, add the sizes of its immediate files, push its
subdirectories (so the last child is popped first), and break out of the
loop as soon as the running total exceeds `1e9` (`// 1 GB early stop`). -/
def cfsLoop : List (List Node) → Nat → Nat
  | [], total => total
  | items :: rest, total =>
    if total + fileSizeSum items > 1000000000 then total + fileSizeSum items
    else cfsLoop ((subdirLists items).reverse ++ rest) (total + fileSizeSum items)
termination_by stack _ => (stack.map (fun l => listWeight l + 1)).sum
decreasing_by
  simp only [List.map_cons, List.sum_cons, List.map_append, List.sum_append, List.map_reverse,
    List.sum_reverse]
  have := subdirLists_weight items
  omega

/-- `computeFolderSize(dir)` (lines 203-222) applied to the listing of the
folder's root directory. -/
def computeFolderSize (items : List Node) : Nat := cfsLoop [items] 0

/-- `getRootName(paths)` from `server.js` (lines 77-81): the first segment of
the first path when that path contains a `/`, else `null`. -/
def getRootName (paths : List String) : Option String :=
  match paths with
  | [] => none
  | p :: _ =>
    let parts := splitSlash p
    if parts.length > 1 then some (parts.headD "") else none

/-- JS truthiness of a string (`Boolean(s)`): false exactly on `""`. -/
def jsTruthy (s : String) : Bool := s ≠ ""

/-- Line 124, `rootFromPaths || upload_<Date.now()>` with
`rootFromPaths = getRootName(paths.filter(Boolean))` (line 101): the chosen
destination folder name of a folder-mode upload, `ts` standing for
`Date.now()`. A `""` result of `getRootName` is falsy and also falls back to
the generated name. -/
def chooseBaseName (paths : List String) (ts : Nat) : String :=
  match getRootName (paths.filter jsTruthy) with
  | some r => if r = "" then "upload_" ++ toString ts else r
  | none => "upload_" ++ toString ts

/-- Spec-side rule (amended C8) for the destination folder name: it is
determined by the first non-empty relative path alone — that path's first
`/`-separated segment when it contains a separator and the segment is
non-empty — and otherwise is the generated `upload_<timestamp>` name. -/
def specRootChoice (firstNonEmpty : Option String) (ts : Nat) : String :=
  match firstNonEmpty with
  | some p =>
    let parts := splitSlash p
    if parts.length > 1 ∧ parts.headD "" ≠ "" then parts.headD ""
    else "upload_" ++ toString ts
  | none => "upload_" ++ toString ts

/-- An uploaded file as multer presents it: original name and buffer. -/
structure UploadFile where
  originalname : String
  buffer : List Nat
deriving DecidableEq

/-- Lines 133-135: strip the shared root segment `R/` from a relative path
when present (`rootFromPaths && rel.startsWith(rootFromPaths + '/')`). -/
def stripRoot (root? : Option String) (rel : String) : String :=
  match root? with
  | some r =>
    if jsTruthy r && strStartsWith rel (r ++ "/") then String.mk (rel.data.drop (r.length + 1))
    else rel
  | none => rel

/-- The per-file write loop of the folder-mode upload branch (lines
129-138): each file's relative path is the paired entry of `paths` when
truthy, else its original name; the shared root is stripped; `safeJoin`
against the destination folder either yields the write target or throws
(ending the handler, `false`). -/
def uploadFolderLoop (baseDir : String) (root? : Option String) :
    List UploadFile → List String → List Ev × Bool
  | [], _ => ([], true)
  | f :: fs, ps =>
    let p := ps.headD ""
    let rel := if jsTruthy p then p else f.originalname
    let rel2 := stripRoot root? rel
    match safeJoin baseDir rel2 with
    | Except.error _ => ([], false)
    | Except.ok target =>
      let r := uploadFolderLoop baseDir root? fs ps.tail
      (Ev.writeFile target f.buffer :: r.1, r.2)

/-- The folder-mode branch of `app.post('/upload')` (lines 123-158), as the
event trace it performs plus `true` when the handler completed (vs threw,
which the catch at line 159 turns into the 500 response). On completion the
handler zips the folder and then removes it; no statement of the branch
creates or removes a `<folder>.uploading` lock marker. -/
def uploadFolder (paths : List String) (files : List UploadFile) (ts : Nat) :
    List Ev × Bool :=
  let root? := getRootName (paths.filter jsTruthy)
  let baseName := chooseBaseName paths ts
  let baseDir := pathJoin UPLOADS_DIR baseName
  let w := uploadFolderLoop baseDir root? files paths
  if w.2 then
    (Ev.ensureDir baseDir :: w.1 ++
      [Ev.zipStart baseName, Ev.zipFinalized baseName, Ev.removeDir baseName], true)
  else
    (Ev.ensureDir baseDir :: w.1, false)

/-- Scanner for the archive-then-delete discipline of a trace: scanning left
to right, a `removeDir n` is accepted when a `zipFinalized n` already
occurred in the trace, or when `hadZip` was passed in. The caller chooses
what seeds `hadZip`: seeding it with `hasEntry st (n ++ ".zip")` accepts a
removal justified by ANY pre-existing entry at the archive path — completed
or partial (`brokenZip`) — which is the discipline the code actually
follows; seeding it with `hasCompletedZip` demands a completed archive. -/
def removalJustified (n : String) : Bool → List Ev → Bool
  | _, [] => true
  | hadZip, e :: rest =>
    match e with
    | Ev.zipFinalized m => removalJustified n (hadZip || m == n) rest
    | Ev.removeDir m => if m == n && !hadZip then false else removalJustified n hadZip rest
    | _ => removalJustified n hadZip rest

/-- Whether a COMPLETED archive for the folder `n` exists: the entry at
`<n>.zip` is a finalized zip — a `brokenZip` left behind by a failed
archiver run does not count. -/
def hasCompletedZip (st : RootState) (n : String) : Bool :=
  match lookupEntry st (n ++ ".zip") with
  | some (.zip _ _) => true
  | _ => false

/-- Whether a trace contains any lock-marker event. -/
def hasLockEv (tr : List Ev) : Bool :=
  tr.any (fun e => match e with
    | Ev.createLock _ => true
    | Ev.removeLock _ => true
    | _ => false)

/-- Number of file writes in a trace. -/
def writeCount (tr : List Ev) : Nat :=
  (tr.filter (fun e => match e with | Ev.writeFile _ _ => true | _ => false)).length

/-- `app.delete('/delete/file/:name')` (lines 301-309): resolve the name via
`safeJoin` (a throw yields the 400 `Invalid path` response), then
`fs.remove` the resolved path — which is not an error when nothing exists
there — and respond `200 Deleted`. -/
def deleteFile (st : RootState) (name : String) : (Nat × String) × RootState :=
  match safeJoin UPLOADS_DIR name with
  | Except.error _ => ((400, "Invalid path"), st)
  | Except.ok full =>
    ((200, "Deleted"), st.filter (fun e => pathJoin UPLOADS_DIR e.name != full))

/-- C1 (code_bug): at base `UPLOADS_DIR` and untrusted input
`../uploads_evil/secret`, `safeJoin` returns `/srv/app/uploads_evil/secret`
— a path outside the uploads root (the `startsWith` prefix check accepts any
sibling whose name extends the root's last component) — instead of failing,
contradicting the claim that `safeJoin` never returns a path outside the
root. -/
theorem safeJoin_escape_counterexample_C1 :
    safeJoin UPLOADS_DIR "../uploads_evil/secret" = Except.ok "/srv/app/uploads_evil/secret" ∧
    withinRoot UPLOADS_DIR "/srv/app/uploads_evil/secret" = false ∧
    strictDescendant UPLOADS_DIR "/srv/app/uploads_evil/secret" = false := by
  refine ⟨rfl, by decide, by decide⟩

/-! Shared helper lemmas -/

/-- An existing directory gives a `folder` lookup result. -/
theorem isDirAt_lookup {st : RootState} {n : String} (h : isDirAt st n = true) :
    ∃ m c, lookupEntry st n = some (RootEntry.folder m c) := by
  unfold isDirAt at h
  split at h
  next m c heq => exact ⟨m, c, heq⟩
  next => simp at h

/-- Removing the entry named `m` does not affect lookups of other names. -/
theorem lookup_removeEntry_ne (st : RootState) {q m : String} (h : q ≠ m) :
    lookupEntry (removeEntry st m) q = lookupEntry st q := by
  induction st with
  | nil => rfl
  | cons e rest ih =>
    simp only [removeEntry, lookupEntry, List.filter_cons] at ih ⊢
    by_cases he : e.name = m
    · have hq : (e.name == q) = false := by
        apply beq_false_of_ne
        intro hqq
        exact h (hqq.symm.trans he)
      have hbne : ¬ (e.name != m) = true := by simp [bne, he]
      rw [if_neg hbne]
      simp only [List.find?_cons, hq]
      exact ih
    · have hbne : (e.name != m) = true := by simp [bne, he]
      rw [if_pos hbne]
      cases hq : (e.name == q) with
      | true => simp only [List.find?_cons, hq]
      | false =>
        simp only [List.find?_cons, hq]
        exact ih

/-- Removing the entry named `m` makes lookups of `m` fail. -/
theorem lookup_removeEntry_self (st : RootState) (m : String) :
    lookupEntry (removeEntry st m) m = none := by
  induction st with
  | nil => rfl
  | cons e rest ih =>
    simp only [removeEntry, lookupEntry, List.filter_cons] at ih ⊢
    by_cases he : e.name = m
    · have hbne : ¬ (e.name != m) = true := by simp [bne, he]
      rw [if_neg hbne]
      exact ih
    · have hbne : (e.name != m) = true := by simp [bne, he]
      have hq : (e.name == m) = false := beq_false_of_ne he
      rw [if_pos hbne]
      simp only [List.find?_cons, hq]
      exact ih

/-- `hasEntry` ignores removals of other names. -/
theorem hasEntry_removeEntry_ne (st : RootState) {q m : String} (h : q ≠ m) :
    hasEntry (removeEntry st m) q = hasEntry st q := by
  induction st with
  | nil => rfl
  | cons e rest ih =>
    simp only [removeEntry, hasEntry, List.filter_cons] at ih ⊢
    by_cases he : e.name = m
    · have hq : (e.name == q) = false := by
        apply beq_false_of_ne
        intro hqq
        exact h (hqq.symm.trans he)
      have hbne : ¬ (e.name != m) = true := by simp [bne, he]
      rw [if_neg hbne]
      rw [List.any_cons, hq]
      simp only [Bool.false_or]
      exact ih
    · have hbne : (e.name != m) = true := by simp [bne, he]
      rw [if_pos hbne, List.any_cons, List.any_cons]
      rw [ih]

/-- Lookup distributes over append, preferring the left part. -/
theorem lookup_append (st st2 : RootState) (q : String) :
    lookupEntry (st ++ st2) q = (lookupEntry st q).or (lookupEntry st2 q) := by
  induction st with
  | nil => rfl
  | cons e rest ih =>
    simp only [lookupEntry, List.cons_append, List.find?_cons] at ih ⊢
    cases hq : (e.name == q) with
    | true => rfl
    | false => exact ih

/-- `hasEntry` distributes over append. -/
theorem hasEntry_append (st st2 : RootState) (q : String) :
    hasEntry (st ++ st2) q = (hasEntry st q || hasEntry st2 q) := by
  unfold hasEntry
  exact List.any_append

/-- No string equals itself with `".zip"` appended. -/
theorem ne_self_append_zip (n : String) : n ++ ".zip" ≠ n := by
  intro h
  have h2 := congrArg String.length h
  rw [String.length_append] at h2
  have h3 : String.length ".zip" = 4 := rfl
  rw [h3] at h2
  omega

/-- No string equals itself with `".uploading"` appended. -/
theorem ne_self_append_uploading (n : String) : n ++ ".uploading" ≠ n := by
  intro h
  have h2 := congrArg String.length h
  rw [String.length_append] at h2
  have h3 : String.length ".uploading" = 10 := rfl
  rw [h3] at h2
  omega

/-- Every outcome of `compactDirectory st m` reports the folder name `m`. -/
theorem compactDirectory_dirName (fail : Option String) (st : RootState) (m : String) :
    ((compactDirectory fail st m).1).dirName = m := by
  unfold compactDirectory
  cases hl : lookupEntry st m with
  | none => rfl
  | some e =>
    cases e with
    | folder a c =>
      by_cases hz : hasEntry st (m ++ ".zip") = true
      · simp [hz, Outcome.dirName]
      · cases fail with
        | none => simp [hz, Outcome.dirName]
        | some msg => simp [hz, Outcome.dirName]
    | file a s d => rfl
    | zip a es => rfl
    | brokenZip a => rfl

/-- A successful root lookup returns an entry bearing the looked-up name. -/
theorem lookup_name {st : RootState} {n : String} {e : RootEntry}
    (h : lookupEntry st n = some e) : e.name = n := by
  have h2 := List.find?_some h
  simpa using h2

/-- `compactDirectory` on a name that is not an existing directory is a
no-op returning the skipped/not-directory outcome. -/
theorem compactDirectory_skipped_of_not_dir (fail : Option String) (st : RootState)
    (n : String) (h : isDirAt st n = false) :
    compactDirectory fail st n = (Outcome.skipped n "not-directory", st, []) := by
  unfold compactDirectory
  cases hl : lookupEntry st n with
  | none => rfl
  | some e =>
    cases e with
    | folder a c => simp [isDirAt, hl] at h
    | file a s d => rfl
    | zip a es => rfl
    | brokenZip a => rfl

/-- `compactDirectory` with an injected archiver failure, on a real folder
with no archive yet: error outcome, partial zip appended, nothing removed. -/
theorem compactDirectory_fail_eq (st : RootState) (n msg : String)
    (hdir : isDirAt st n = true) (hzip : hasEntry st (n ++ ".zip") = false) :
    compactDirectory (some msg) st n =
      (Outcome.error n msg, st ++ [RootEntry.brokenZip (n ++ ".zip")], [Ev.zipStart n]) := by
  obtain ⟨m, c, hl⟩ := isDirAt_lookup hdir
  unfold compactDirectory
  rw [hl]
  simp [hzip]

/-- `compactDirectory` with a successful archiver, on a real folder with no
archive yet: compacted outcome, zip of the folder's children appended, the
folder removed, events in archive-then-delete order. -/
theorem compactDirectory_ok_eq (st : RootState) (n : String)
    (hdir : isDirAt st n = true) (hzip : hasEntry st (n ++ ".zip") = false) :
    ∃ c, lookupEntry st n = some (RootEntry.folder n c) ∧
      compactDirectory none st n =
        (Outcome.compacted n,
         removeEntry (st ++ [RootEntry.zip (n ++ ".zip") c]) n,
         [Ev.zipStart n, Ev.zipFinalized n, Ev.removeDir n]) := by
  obtain ⟨m, c, hl⟩ := isDirAt_lookup hdir
  have hm : m = n := by
    have := lookup_name hl
    simpa [RootEntry.name] using this
  subst hm
  refine ⟨c, hl, ?_⟩
  unfold compactDirectory
  rw [hl]
  simp [hzip]

/-! Claim theorems -/

/-- C10: `compactDirectory` called with a name that does not denote an
existing directory under the uploads root returns the skipped outcome with
reason `not-directory`, is not an error, and performs no filesystem
modification (unchanged state, empty event trace). -/
theorem compactDirectory_not_directory_C10 (fail : Option String) (st : RootState)
    (n : String) (h : isDirAt st n = false) :
    compactDirectory fail st n = (Outcome.skipped n "not-directory", st, []) ∧
    isErrorOutcome (compactDirectory fail st n).1 = false := by
  have he := compactDirectory_skipped_of_not_dir fail st n h
  exact ⟨he, by rw [he]; rfl⟩

/-- Witness for C10 at a concrete state whose only entry is a loose file. -/
theorem compactDirectory_not_directory_C10_witness :
    isDirAt [RootEntry.file "a.txt" 3 [1, 2, 3]] "ghost" = false ∧
    compactDirectory none [RootEntry.file "a.txt" 3 [1, 2, 3]] "ghost"
      = (Outcome.skipped "ghost" "not-directory", [RootEntry.file "a.txt" 3 [1, 2, 3]], []) :=
  ⟨by decide, (compactDirectory_not_directory_C10 none _ "ghost" (by decide)).1⟩

/-- C7: if archive creation fails during `compactDirectory`, the outcome is
the error object carrying the folder name and the underlying message (not a
throw), the source folder's entry is unchanged, and the partially written
archive file exists afterwards (it is not deleted). -/
theorem compactDirectory_archive_failure_C7 (st : RootState) (n msg : String)
    (hdir : isDirAt st n = true) (hzip : hasEntry st (n ++ ".zip") = false) :
    (compactDirectory (some msg) st n).1 = Outcome.error n msg ∧
    lookupEntry (compactDirectory (some msg) st n).2.1 n = lookupEntry st n ∧
    hasEntry (compactDirectory (some msg) st n).2.1 (n ++ ".zip") = true := by
  rw [compactDirectory_fail_eq st n msg hdir hzip]
  obtain ⟨m, c, hl⟩ := isDirAt_lookup hdir
  refine ⟨rfl, ?_, ?_⟩
  · rw [lookup_append, hl]
    rfl
  · rw [hasEntry_append]
    simp [hasEntry]
    right
    rfl

/-- Witness for C7 at a concrete one-folder state. -/
theorem compactDirectory_archive_failure_C7_witness :
    isDirAt [RootEntry.folder "docs" [Node.file "a.txt" 2 [7, 8]]] "docs" = true ∧
    hasEntry [RootEntry.folder "docs" [Node.file "a.txt" 2 [7, 8]]] "docs.zip" = false ∧
    (compactDirectory (some "boom") [RootEntry.folder "docs" [Node.file "a.txt" 2 [7, 8]]]
        "docs").1 = Outcome.error "docs" "boom" :=
  ⟨by decide, by decide,
    (compactDirectory_archive_failure_C7 _ "docs" "boom" (by decide) (by decide)).1⟩

/-- C5 (corrected), counterexample to the claim as stated: after a first
compaction of `docs` succeeds, the second invocation reports
skipped/not-directory (the folder is gone), not the `removed` cleanup
outcome the claim promises. -/
theorem compact_twice_counterexample_C5 :
    (compactDirectory none
        (compactDirectory none [RootEntry.folder "docs" [Node.file "a.txt" 3 [1, 2, 3]]]
            "docs").2.1
        "docs").1 = Outcome.skipped "docs" "not-directory" ∧
    isRemovedOutcome
      (compactDirectory none
        (compactDirectory none [RootEntry.folder "docs" [Node.file "a.txt" 3 [1, 2, 3]]]
            "docs").2.1
        "docs").1 = false := by
  constructor
  · rfl
  · rfl

/-- C5 (corrected): on a folder with no archive yet, the first compaction
reports `compacted`; the second invocation on the resulting state reports
skipped/not-directory (the folder no longer exists), leaves the state
unchanged (in particular it creates no second archive), and is neither an
error nor the `removed` outcome. -/
theorem compact_twice_C5 (st : RootState) (n : String)
    (hdir : isDirAt st n = true) (hzip : hasEntry st (n ++ ".zip") = false) :
    (compactDirectory none st n).1 = Outcome.compacted n ∧
    compactDirectory none (compactDirectory none st n).2.1 n
      = (Outcome.skipped n "not-directory", (compactDirectory none st n).2.1, []) ∧
    isErrorOutcome (compactDirectory none (compactDirectory none st n).2.1 n).1 = false ∧
    isRemovedOutcome (compactDirectory none (compactDirectory none st n).2.1 n).1 = false := by
  obtain ⟨c, hl, heq⟩ := compactDirectory_ok_eq st n hdir hzip
  rw [heq]
  have hnd : isDirAt (removeEntry (st ++ [RootEntry.zip (n ++ ".zip") c]) n) n = false := by
    unfold isDirAt
    rw [lookup_removeEntry_self]
  have h2 := compactDirectory_skipped_of_not_dir none
    (removeEntry (st ++ [RootEntry.zip (n ++ ".zip") c]) n) n hnd
  refine ⟨rfl, h2, ?_, ?_⟩
  · rw [h2]
    rfl
  · rw [h2]
    rfl

/-- Witness for C5 at a concrete one-folder state. -/
theorem compact_twice_C5_witness :
    isDirAt [RootEntry.folder "pics" [Node.file "p.png" 4 [9]]] "pics" = true ∧
    hasEntry [RootEntry.folder "pics" [Node.file "p.png" 4 [9]]] ("pics" ++ ".zip") = false ∧
    (compactDirectory none [RootEntry.folder "pics" [Node.file "p.png" 4 [9]]] "pics").1
      = Outcome.compacted "pics" :=
  ⟨by decide, by decide,
    (compact_twice_C5 [RootEntry.folder "pics" [Node.file "p.png" 4 [9]]] "pics"
      (by decide) (by decide)).1⟩

/-- C9: `DELETE /delete/file/:name` with a name that passes `safeJoin`
validation responds `200 Deleted` even when nothing at the resolved path
exists, and the state is unchanged — deleting an absent file is not an
error, so deletion is idempotent. -/
theorem deleteFile_absent_C9 (st : RootState) (name full : String)
    (hok : safeJoin UPLOADS_DIR name = Except.ok full)
    (habs : ∀ e ∈ st, pathJoin UPLOADS_DIR e.name ≠ full) :
    deleteFile st name = ((200, "Deleted"), st) := by
  unfold deleteFile
  rw [hok]
  have hf : st.filter (fun e => pathJoin UPLOADS_DIR e.name != full) = st := by
    apply List.filter_eq_self.mpr
    intro a ha
    simpa [bne] using habs a ha
  show ((200, "Deleted"), st.filter (fun e => pathJoin UPLOADS_DIR e.name != full)) = ((200, "Deleted"), st)
  rw [hf]

/-- Witness for C9: deleting the absent `ghost.txt` from a state holding
only `keep.txt` responds `200 Deleted` and changes nothing. -/
theorem deleteFile_absent_C9_witness :
    safeJoin UPLOADS_DIR "ghost.txt" = Except.ok "/srv/app/uploads/ghost.txt" ∧
    deleteFile [RootEntry.file "keep.txt" 1 [7]] "ghost.txt"
      = ((200, "Deleted"), [RootEntry.file "keep.txt" 1 [7]]) :=
  ⟨rfl,
    deleteFile_absent_C9 [RootEntry.file "keep.txt" 1 [7]] "ghost.txt"
      "/srv/app/uploads/ghost.txt" rfl (by decide)⟩

/-- C8 (corrected), counterexample to the claim as stated: two folder-mode
batches share the same first entry `""` (which contains no separator, so the
claim demands the generated `upload_7` name for both), yet the chosen names
differ — they are taken from the second entries. -/
theorem chooseBaseName_counterexample_C8 :
    chooseBaseName ["", "docs/a.txt"] 7 = "docs" ∧
    chooseBaseName ["", "evil/a.txt"] 7 = "evil" ∧
    ("docs" : String) ≠ "upload_7" ∧ ("evil" : String) ≠ "upload_7" :=
  ⟨rfl, rfl, by decide, by decide⟩

/-- C8 (corrected): the destination folder name of a folder-mode upload is
determined solely by the first NON-EMPTY (truthy) relative path — its first
segment when it contains a separator and that segment is non-empty,
otherwise the generated `upload_<timestamp>` name; entries after the first
non-empty path never influence the name. -/
theorem chooseBaseName_first_nonempty_C8 (paths : List String) (ts : Nat) :
    chooseBaseName paths ts = specRootChoice ((paths.filter jsTruthy).head?) ts := by
  unfold chooseBaseName specRootChoice getRootName
  cases hf : paths.filter jsTruthy with
  | nil => rfl
  | cons p rest =>
    simp only [List.head?]
    by_cases hl : (splitSlash p).length > 1
    · by_cases he : (splitSlash p).headD "" = ""
      · simp [hl, he]
      · simp [hl, he]
    · simp [hl]

/-- Exact cumulative size of a listing splits into the sizes of its
immediate files plus the cumulative sizes of its subdirectories. -/
theorem cumSize_decompose (l : List Node) :
    cumSize l = fileSizeSum l + ((subdirLists l).map cumSize).sum := by
  induction l with
  | nil => simp [cumSize, fileSizeSum, subdirLists]
  | cons x xs ih =>
    cases x with
    | file n s d =>
      simp only [cumSize, fileSizeSum, subdirLists, List.filterMap_cons, List.map_cons,
        List.sum_cons] at ih ⊢
      rw [Node.total]
      omega
    | dir n c =>
      simp only [cumSize, fileSizeSum, subdirLists, List.filterMap_cons, List.map_cons,
        List.sum_cons] at ih ⊢
      rw [Node.total_dir]
      omega

/-- The traversal loop never returns more than the exact remaining total. -/
theorem cfsLoop_le (stack : List (List Node)) (total : Nat) :
    cfsLoop stack total ≤ total + (stack.map cumSize).sum := by
  induction stack, total using cfsLoop.induct with
  | case1 total => simp [cfsLoop]
  | case2 items rest total h =>
    rw [cfsLoop, if_pos h]
    have hd := cumSize_decompose items
    simp only [List.map_cons, List.sum_cons]
    omega
  | case3 items rest total h ih =>
    rw [cfsLoop, if_neg h]
    have hd := cumSize_decompose items
    simp only [List.map_cons, List.sum_cons]
    simp only [List.map_append, List.sum_append, List.map_reverse, List.sum_reverse] at ih
    omega

/-- The traversal loop either runs to completion — returning the exact
total — or stops early with a value above the `1e9` ceiling. -/
theorem cfsLoop_bound (stack : List (List Node)) (total : Nat) :
    cfsLoop stack total = total + (stack.map cumSize).sum ∨
    cfsLoop stack total > 1000000000 := by
  induction stack, total using cfsLoop.induct with
  | case1 total => left; simp [cfsLoop]
  | case2 items rest total h =>
    right
    rw [cfsLoop, if_pos h]
    omega
  | case3 items rest total h ih =>
    rw [cfsLoop, if_neg h]
    rcases ih with he | hgt
    · left
      rw [he]
      simp only [List.map_append, List.sum_append, List.map_reverse, List.sum_reverse,
        List.map_cons, List.sum_cons]
      have hd := cumSize_decompose items
      omega
    · right
      exact hgt

/-- C4 (corrected), counterexample to the claim as stated: on a tree whose
cumulative size (2000000001) exceeds 1 GiB, `computeFolderSize` stops after
the first directory at 1000000001 — strictly below the claimed 1 GiB
(2^30 = 1073741824) ceiling — because the source's ceiling is `1e9`, and
the subdirectory is left unvisited (the result is less than the exact
total). -/
theorem computeFolderSize_gib_counterexample_C4 :
    computeFolderSize
        [Node.file "a" 1000000001 [], Node.dir "d" [Node.file "b" 1000000000 []]]
      = 1000000001 ∧
    cumSize [Node.file "a" 1000000001 [], Node.dir "d" [Node.file "b" 1000000000 []]]
      = 2000000001 ∧
    2 ^ 30 ≤ cumSize [Node.file "a" 1000000001 [], Node.dir "d" [Node.file "b" 1000000000 []]] ∧
    computeFolderSize
        [Node.file "a" 1000000001 [], Node.dir "d" [Node.file "b" 1000000000 []]]
      < 2 ^ 30 := by
  have h1 : computeFolderSize
      [Node.file "a" 1000000001 [], Node.dir "d" [Node.file "b" 1000000000 []]]
      = 1000000001 := by
    simp [computeFolderSize, cfsLoop, fileSizeSum, subdirLists]
  have h2 : cumSize [Node.file "a" 1000000001 [], Node.dir "d" [Node.file "b" 1000000000 []]]
      = 2000000001 := by
    simp [cumSize, Node.total, Node.total_dir]
  refine ⟨h1, h2, by rw [h2]; norm_num, by rw [h1]; norm_num⟩

/-- C4 (corrected): the early-stop ceiling is `1e9` bytes (1 GB), not 1 GiB:
on a listing whose exact cumulative size exceeds `1e9`, `computeFolderSize`
returns a value above the `1e9` ceiling and at most the exact cumulative
size (the traversal may stop before visiting all remaining entries). -/
theorem computeFolderSize_ceiling_C4 (items : List Node)
    (h : cumSize items > 1000000000) :
    computeFolderSize items > 1000000000 ∧ computeFolderSize items ≤ cumSize items := by
  have hb := cfsLoop_bound [items] 0
  have hl := cfsLoop_le [items] 0
  simp only [List.map_cons, List.map_nil, List.sum_cons, List.sum_nil] at hb hl
  unfold computeFolderSize
  omega

/-- Witness for C4 on a concrete two-file listing of cumulative size
1100000000. -/
theorem computeFolderSize_ceiling_C4_witness :
    cumSize [Node.file "a" 600000000 [], Node.file "b" 500000000 []] > 1000000000 ∧
    computeFolderSize [Node.file "a" 600000000 [], Node.file "b" 500000000 []]
      > 1000000000 := by
  have h : cumSize [Node.file "a" 600000000 [], Node.file "b" 500000000 []]
      > 1000000000 := by
    simp [cumSize, Node.total]
  exact ⟨h, (computeFolderSize_ceiling_C4 _ h).1⟩

/-- C2 (code_bug): a concrete folder-mode ingest of two files writes both
files and completes — zipping and removing the folder — without a single
lock-marker event in its trace: the handler never creates the
`<folder>.uploading` marker, so no marker exists during tree construction. -/
theorem upload_no_lock_marker_C2 :
    hasLockEv (uploadFolder ["docs/a.txt", "docs/sub/b.txt"]
        [UploadFile.mk "a.txt" [104], UploadFile.mk "b.txt" [119]] 0).1 = false ∧
    writeCount (uploadFolder ["docs/a.txt", "docs/sub/b.txt"]
        [UploadFile.mk "a.txt" [104], UploadFile.mk "b.txt" [119]] 0).1 = 2 ∧
    (uploadFolder ["docs/a.txt", "docs/sub/b.txt"]
        [UploadFile.mk "a.txt" [104], UploadFile.mk "b.txt" [119]] 0).2 = true :=
  ⟨rfl, rfl, rfl⟩

/-- Every event the per-file write loop emits is a `writeFile`. -/
theorem uploadFolderLoop_writes_only (baseDir : String) (root? : Option String)
    (files : List UploadFile) (ps : List String) :
    ∀ e ∈ (uploadFolderLoop baseDir root? files ps).1, ∃ t d, e = Ev.writeFile t d := by
  induction files generalizing ps with
  | nil =>
    intro e he
    simp [uploadFolderLoop] at he
  | cons f fs ih =>
    intro e he
    rw [uploadFolderLoop] at he
    split at he
    next => simp at he
    next target heq =>
      rcases List.mem_cons.mp he with h1 | h2
      · exact ⟨target, f.buffer, h1⟩
      · exact ih ps.tail e h2

/-- A block of `writeFile` events does not affect `removalJustified`. -/
theorem removalJustified_writes (n : String) (b : Bool) (l rest : List Ev)
    (hw : ∀ e ∈ l, ∃ t d, e = Ev.writeFile t d) :
    removalJustified n b (l ++ rest) = removalJustified n b rest := by
  induction l with
  | nil => rfl
  | cons e l ih =>
    obtain ⟨t, d, he⟩ := hw e (List.mem_cons_self e l)
    subst he
    rw [List.cons_append]
    exact ih (fun e2 he2 => hw e2 (List.mem_cons_of_mem _ he2))

/-- The discipline `compactDirectory` actually follows: the folder is
removed only after a `zipFinalized` in the same trace, or when SOME entry —
completed or partial — already sat at the `<n>.zip` path when the call
began. -/
theorem compactDirectory_removal_guard (fail : Option String) (st : RootState) (n : String) :
    removalJustified n (hasEntry st (n ++ ".zip")) (compactDirectory fail st n).2.2
      = true := by
  unfold compactDirectory
  cases hl : lookupEntry st n with
  | none => rfl
  | some e =>
    cases e with
    | folder a c =>
      by_cases hz : hasEntry st (n ++ ".zip") = true
      · simp [hz, removalJustified]
      · have hz2 : hasEntry st (n ++ ".zip") = false := by
          cases hb : hasEntry st (n ++ ".zip") with
          | true => exact absurd hb hz
          | false => rfl
        cases fail with
        | some msg => simp [hz2, removalJustified]
        | none => simp [hz2, removalJustified]
    | file a s d => rfl
    | zip a es => rfl
    | brokenZip a => rfl

/-- The folder-mode upload branch finalizes the zip before removing the
folder (no pre-existing archive is ever needed to justify its removal). -/
theorem uploadFolder_removal_guard (paths : List String) (files : List UploadFile)
    (ts : Nat) :
    removalJustified (chooseBaseName paths ts) false (uploadFolder paths files ts).1
      = true := by
  simp only [uploadFolder]
  have hwr := uploadFolderLoop_writes_only (pathJoin UPLOADS_DIR (chooseBaseName paths ts))
    (getRootName (paths.filter jsTruthy)) files paths
  have hstep : ∀ rest : List Ev,
      removalJustified (chooseBaseName paths ts) false
        (Ev.ensureDir (pathJoin UPLOADS_DIR (chooseBaseName paths ts)) :: rest)
        = removalJustified (chooseBaseName paths ts) false rest := fun rest => rfl
  cases hw : (uploadFolderLoop (pathJoin UPLOADS_DIR (chooseBaseName paths ts))
      (getRootName (paths.filter jsTruthy)) files paths).2 with
  | true =>
    simp only [hw, if_true]
    rw [List.cons_append, hstep]
    rw [removalJustified_writes _ _ _ _ hwr]
    simp [removalJustified]
  | false =>
    simp only [hw, Bool.false_eq_true, if_false]
    rw [hstep]
    rw [← List.append_nil (uploadFolderLoop (pathJoin UPLOADS_DIR (chooseBaseName paths ts))
      (getRootName (paths.filter jsTruthy)) files paths).1]
    rw [removalJustified_writes _ _ _ _ hwr]
    rfl

/-- `compactDirectory st m` never disturbs another name `q ≠ m`: an existing
entry`s lookup is unchanged and an existing entry keeps existing. -/
theorem compactDirectory_keeps (fail : Option String) (st : RootState) (m q : String)
    (hq : q ≠ m) :
    (lookupEntry st q ≠ none →
        lookupEntry (compactDirectory fail st m).2.1 q = lookupEntry st q) ∧
    (hasEntry st q = true → hasEntry (compactDirectory fail st m).2.1 q = true) := by
  unfold compactDirectory
  cases hl : lookupEntry st m with
  | none => exact ⟨fun _ => rfl, fun h => h⟩
  | some e =>
    cases e with
    | folder a c =>
      by_cases hz : hasEntry st (m ++ ".zip") = true
      · simp only [hz, if_true]
        refine ⟨fun _ => lookup_removeEntry_ne st hq, fun h => ?_⟩
        rw [hasEntry_removeEntry_ne st hq]
        exact h
      · have hz3 : hasEntry st (m ++ ".zip") = false := by
          cases hb : hasEntry st (m ++ ".zip") with
          | true => exact absurd hb hz
          | false => rfl
        simp only [hz3, Bool.false_eq_true, if_false]
        cases fail with
        | some msg =>
          constructor
          · intro hex
            rw [lookup_append]
            cases hle : lookupEntry st q with
            | none => exact absurd hle hex
            | some x => rfl
          · intro h
            rw [hasEntry_append]
            rw [h]
            rfl
        | none =>
          constructor
          · intro hex
            rw [lookup_removeEntry_ne _ hq, lookup_append]
            cases hle : lookupEntry st q with
            | none => exact absurd hle hex
            | some x => rfl
          · intro h
            rw [hasEntry_removeEntry_ne _ hq, hasEntry_append, h]
            rfl
    | file a s d => exact ⟨fun _ => rfl, fun h => h⟩
    | zip a es => exact ⟨fun _ => rfl, fun h => h⟩
    | brokenZip a => exact ⟨fun _ => rfl, fun h => h⟩

/-- Invariant of the `compactAll` sweep loop: while the `<n>.uploading` lock
file exists (and is not itself among the processed directory names), the
sweep records no outcome naming `n`, never changes the entry named `n`, and
keeps the lock file alive. -/
theorem compactAllLoop_locked (failFor : String → Option String) (names : List String)
    (st : RootState) (n : String)
    (hlock : hasEntry st (n ++ ".uploading") = true)
    (hex : lookupEntry st n ≠ none)
    (hnames : (n ++ ".uploading") ∉ names) :
    (∀ o ∈ (compactAllLoop failFor names st).1, o.dirName ≠ n) ∧
    lookupEntry (compactAllLoop failFor names st).2 n = lookupEntry st n ∧
    hasEntry (compactAllLoop failFor names st).2 (n ++ ".uploading") = true := by
  induction names generalizing st with
  | nil => exact ⟨by simp [compactAllLoop], rfl, hlock⟩
  | cons m rest ih =>
    have hnames2 : (n ++ ".uploading") ∉ rest := fun h => hnames (List.mem_cons_of_mem _ h)
    have hm : m ≠ n ++ ".uploading" := fun h => hnames (h ▸ List.mem_cons_self _ _)
    unfold compactAllLoop
    by_cases h1 : strStartsWith m "." = true
    · simp only [h1, if_true]
      exact ih st hlock hex hnames2
    · have hf1 : strStartsWith m "." = false := by
        cases hb : strStartsWith m "." with
        | true => exact absurd hb h1
        | false => rfl
      simp only [hf1, Bool.false_eq_true, if_false]
      by_cases h2 : hasEntry st (m ++ ".uploading") = true
      · simp only [h2, if_true]
        exact ih st hlock hex hnames2
      · have hf2 : hasEntry st (m ++ ".uploading") = false := by
          cases hb : hasEntry st (m ++ ".uploading") with
          | true => exact absurd hb h2
          | false => rfl
        simp only [hf2, Bool.false_eq_true, if_false]
        have hmn : m ≠ n := by
          intro hh
          subst hh
          exact h2 hlock
        have hkeepN := (compactDirectory_keeps (failFor m) st m n
          (fun hh => hmn hh.symm)).1 hex
        have hkeepL := (compactDirectory_keeps (failFor m) st m (n ++ ".uploading")
          (fun hh => hm hh.symm)).2 hlock
        have hex2 : lookupEntry (compactDirectory (failFor m) st m).2.1 n ≠ none := by
          rw [hkeepN]
          exact hex
        obtain ⟨ho, hlk, hhe⟩ := ih (compactDirectory (failFor m) st m).2.1 hkeepL hex2 hnames2
        refine ⟨?_, by rw [hlk, hkeepN], hhe⟩
        intro o hoin
        rcases List.mem_cons.mp hoin with h3 | h4
        · rw [h3, compactDirectory_dirName]
          exact hmn
        · exact ho o h4

/-- C3 (corrected), counterexample to the claim as stated: with the folder
`docs` locked by `docs.uploading`, `compactAll` returns the EMPTY outcome
sequence — it records no `skipped` outcome for `docs` (the folder is skipped
silently) — although the folder itself is untouched. -/
theorem compactAll_locked_counterexample_C3 :
    compactAll (fun _ => none)
      [RootEntry.folder "docs" [Node.file "a.txt" 5 [1, 2, 3, 4, 5]],
       RootEntry.file "docs.uploading" 0 []]
      = ([], [RootEntry.folder "docs" [Node.file "a.txt" 5 [1, 2, 3, 4, 5]],
              RootEntry.file "docs.uploading" 0 []]) := rfl

/-- C3 (corrected): a folder whose `<name>.uploading` lock file exists at
sweep time (and whose lock name is not itself a directory) yields NO
per-folder outcome at all — in particular no recorded `skipped` outcome —
and the folder's entry, with all its contents, is identical before and
after the sweep. -/
theorem compactAll_locked_untouched_C3 (failFor : String → Option String)
    (st : RootState) (n : String)
    (hdir : isDirAt st n = true)
    (hlock : hasEntry st (n ++ ".uploading") = true)
    (hnotdir : (n ++ ".uploading") ∉ dirNames st) :
    (∀ o ∈ (compactAll failFor st).1, o.dirName ≠ n) ∧
    lookupEntry (compactAll failFor st).2 n = lookupEntry st n := by
  have hex : lookupEntry st n ≠ none := by
    obtain ⟨m, c, hl⟩ := isDirAt_lookup hdir
    rw [hl]
    exact fun h => Option.noConfusion h
  obtain ⟨a, b, _⟩ := compactAllLoop_locked failFor (dirNames st) st n hlock hex hnotdir
  exact ⟨a, b⟩

/-- Witness for C3 at a concrete state with a locked `docs` folder and an
unlocked `other` folder: the sweep leaves the `docs` entry untouched. -/
theorem compactAll_locked_untouched_C3_witness :
    hasEntry
      [RootEntry.folder "docs" [Node.file "a.txt" 5 [1, 2, 3, 4, 5]],
       RootEntry.file "docs.uploading" 0 [],
       RootEntry.folder "other" []] ("docs" ++ ".uploading") = true ∧
    lookupEntry
      (compactAll (fun _ => none)
        [RootEntry.folder "docs" [Node.file "a.txt" 5 [1, 2, 3, 4, 5]],
         RootEntry.file "docs.uploading" 0 [],
         RootEntry.folder "other" []]).2 "docs"
      = lookupEntry
        [RootEntry.folder "docs" [Node.file "a.txt" 5 [1, 2, 3, 4, 5]],
         RootEntry.file "docs.uploading" 0 [],
         RootEntry.folder "other" []] "docs" :=
  ⟨by decide,
    (compactAll_locked_untouched_C3 (fun _ => none)
      [RootEntry.folder "docs" [Node.file "a.txt" 5 [1, 2, 3, 4, 5]],
       RootEntry.file "docs.uploading" 0 [],
       RootEntry.folder "other" []] "docs" (by decide) (by decide) (by decide)).2⟩

/-- A name with no entry at all has a failing lookup. -/
theorem lookup_eq_none_of_not_hasEntry {st : RootState} {q : String}
    (h : hasEntry st q = false) : lookupEntry st q = none := by
  unfold hasEntry at h
  rw [List.any_eq_false] at h
  unfold lookupEntry
  rw [List.find?_eq_none]
  exact h

/-- C6 (corrected), counterexample to the claim as stated: a failed
archiving run on `logs` retains the folder and a PARTIAL `logs.zip`
(`brokenZip`); the retry then takes the zip-exists fast path of
`compactDirectory` and deletes the folder — outcome `removed`, trace
`[removeDir]` with no `zipFinalized` in it — although no completed archive
exists in the state, so the source folder is deleted without a completed
archive. -/
theorem folder_removed_without_completed_archive_C6 :
    (compactDirectory (some "boom") [RootEntry.folder "logs" [Node.file "l.txt" 1 [3]]]
        "logs").2.1
      = [RootEntry.folder "logs" [Node.file "l.txt" 1 [3]], RootEntry.brokenZip "logs.zip"] ∧
    (compactDirectory none
        [RootEntry.folder "logs" [Node.file "l.txt" 1 [3]], RootEntry.brokenZip "logs.zip"]
        "logs").1 = Outcome.removed "logs" true ∧
    (compactDirectory none
        [RootEntry.folder "logs" [Node.file "l.txt" 1 [3]], RootEntry.brokenZip "logs.zip"]
        "logs").2.2 = [Ev.removeDir "logs"] ∧
    hasCompletedZip
        [RootEntry.folder "logs" [Node.file "l.txt" 1 [3]], RootEntry.brokenZip "logs.zip"]
        "logs" = false ∧
    removalJustified "logs"
      (hasCompletedZip
        [RootEntry.folder "logs" [Node.file "l.txt" 1 [3]], RootEntry.brokenZip "logs.zip"]
        "logs")
      (compactDirectory none
        [RootEntry.folder "logs" [Node.file "l.txt" 1 [3]], RootEntry.brokenZip "logs.zip"]
        "logs").2.2 = false ∧
    lookupEntry
      (compactDirectory none
        [RootEntry.folder "logs" [Node.file "l.txt" 1 [3]], RootEntry.brokenZip "logs.zip"]
        "logs").2.1 "logs" = none :=
  ⟨rfl, rfl, rfl, rfl, rfl, rfl⟩

/-- C6 (corrected): in `compactDirectory` the folder is removed only after
the archive is finalized in that same trace or SOME entry — completed zip or
partial `brokenZip` — already sat at the `<folder>.zip` path when the call
began; in particular, when no entry at all exists at that path beforehand,
removal happens only after a COMPLETED archive is finalized in the same run.
The folder-mode upload branch always finalizes the zip before removing the
folder. (The claim's stronger reading — never deleted without a completed
archive — fails on the fast path, which accepts a partial archive.) -/
theorem archive_before_delete_C6 :
    (∀ (fail : Option String) (st : RootState) (n : String),
        removalJustified n (hasEntry st (n ++ ".zip")) (compactDirectory fail st n).2.2
          = true) ∧
    (∀ (fail : Option String) (st : RootState) (n : String),
        hasEntry st (n ++ ".zip") = false →
          removalJustified n (hasCompletedZip st n) (compactDirectory fail st n).2.2
            = true) ∧
    (∀ (paths : List String) (files : List UploadFile) (ts : Nat),
        removalJustified (chooseBaseName paths ts) false (uploadFolder paths files ts).1
          = true) := by
  refine ⟨compactDirectory_removal_guard, ?_, uploadFolder_removal_guard⟩
  intro fail st n h
  have hcz : hasCompletedZip st n = false := by
    unfold hasCompletedZip
    rw [lookup_eq_none_of_not_hasEntry h]
  have ha := compactDirectory_removal_guard fail st n
  rw [h] at ha
  rw [hcz]
  exact ha

/-- Witness for C6: with no entry at `notes.zip` beforehand, compaction of
`notes` removes the folder only after a completed archive is finalized in
the same trace. -/
theorem archive_before_delete_C6_witness :
    hasEntry [RootEntry.folder "notes" [Node.file "n.txt" 1 [4]]] ("notes" ++ ".zip")
      = false ∧
    removalJustified "notes"
      (hasCompletedZip [RootEntry.folder "notes" [Node.file "n.txt" 1 [4]]] "notes")
      (compactDirectory none [RootEntry.folder "notes" [Node.file "n.txt" 1 [4]]]
        "notes").2.2 = true :=
  ⟨by decide,
    archive_before_delete_C6.2.1 none [RootEntry.folder "notes" [Node.file "n.txt" 1 [4]]]
      "notes" (by decide)⟩
